import Mathlib

/-!
# ipbounce: the per-packet header decoder `handle_packet` (src/main.c)

A shallow embedding of `handle_packet` and the properties of it that the
specification states.

* A captured frame is the list of its `caplen` bytes; `data[i]` is a read of
  the frame at offset `i`.  A read at or past the end of the frame is undefined
  behaviour in C and is a `Fault` here.
* `unsigned char` / `unsigned short` stores are written with their explicit
  reduction modulo `2^8` / `2^16`.
* `fprintf(stderr, ...)` and `printf(...)` append the formatted text to the
  `stderr` and `stdout` components of a `Trace`; the trace also records every
  frame offset that has been read.
-/

namespace Ipbounce

/-- A `uint8_t`. -/
abbrev Byte := Fin 256

/-- One variadic argument of a `printf` call: an `int` for `%d` (only
non-negative values occur), a `const char*` for `%s` (`none` is `NULL`). -/
inductive Arg where
  | int (n : Nat)
  | str (s : Option String)
deriving DecidableEq, Repr

/-- The `%d` and `%s` conversions of C `printf`, over the characters of the
format string.  A `NULL` string prints as `(null)`, as glibc does. -/
def printfAux : List Char → List Arg → List Char
  | '%' :: 'd' :: rest, Arg.int n :: args => (Nat.repr n).data ++ printfAux rest args
  | '%' :: 's' :: rest, Arg.str s :: args => (s.getD "(null)").data ++ printfAux rest args
  | c :: rest, args => c :: printfAux rest args
  | [], _ => []

/-- The text produced by `printf(fmt, args...)`. -/
def printf (fmt : String) (args : List Arg) : String :=
  ⟨printfAux fmt.data args⟩

/-- What `handle_packet` has done so far: the frame offsets it has read (in
order), the text written to `stderr`, the text written to `stdout`. -/
structure Trace where
  reads : List Nat
  stderr : List String
  stdout : List String
deriving DecidableEq, Repr

/-- Undefined behaviour: a read of the frame at offset `index`, which is at or
past the end of the captured bytes, after the effects in `trace`. -/
structure Fault where
  index : Nat
  trace : Trace
deriving DecidableEq, Repr

/-- The local variables of `handle_packet` when it reaches its `printf`. -/
structure Locals where
  version : Nat
  ihl : Nat
  len : Nat
  evil : Bool
  ttl : Nat
  protocol_num : Nat
  protocol_name : Option String
deriving DecidableEq, Repr

/-- The read `frame[i]` of a captured frame (main.c, every `data[k]`). -/
def rd (frame : List Byte) (i : Nat) (t : Trace) : Except Fault (Nat × Trace) :=
  match frame[i]? with
  | some b => .ok (b.val, { t with reads := t.reads ++ [i] })
  | none => .error ⟨i, t⟩

/-- The `switch (protocol_num)` of main.c lines 22-32, as the value it leaves in
the pointer `protocol_name` (`none` is `NULL`, the value before the switch). -/
def protocol_name (protocol_num : Nat) : Option String :=
  match protocol_num with
  | 1 => some "ICMP"
  | 4 => some "Packet encapsulation"
  | 6 => some "TCP"
  | 17 => some "UDP"
  | 69 => some "Nice (also SATNET)"
  | 180 => some "ipbounce setup"
  | _ => some "Something else"

/-- The function `handle_packet` of main.c lines 8-50, on the captured bytes of
one frame.  The arguments `_` and `header` are not used by the C code. -/
def handle_packet (frame : List Byte) : Except Fault (Locals × Trace) := do
  let t : Trace := ⟨[], [], []⟩
  -- data += 16;
  let data := 16
  -- unsigned char version = data[0] >> 4;
  let (d0, t) ← rd frame (data + 0) t
  let version := (d0 >>> 4) % 256
  -- if (version != 4 && version != 6) fprintf(stderr, "Invalid version: %d\n", version);
  let t := if version ≠ 4 ∧ version ≠ 6 then
      { t with stderr := t.stderr ++ [printf "Invalid version: %d\n" [.int version]] }
    else t
  -- unsigned char ihl = (data[0] & 0xf) * 4;
  let (d0, t) ← rd frame (data + 0) t
  let ihl := ((d0 &&& 0xf) * 4) % 256
  -- unsigned short len = (data[2] << 8 | data[3]);
  let (d2, t) ← rd frame (data + 2) t
  let (d3, t) ← rd frame (data + 3) t
  let len := ((d2 <<< 8) ||| d3) % 65536
  -- bool evil = data[6] & 0x80;
  let (d6, t) ← rd frame (data + 6) t
  let evil := (d6 &&& 0x80) != 0
  -- unsigned char ttl = data[8];
  let (d8, t) ← rd frame (data + 8) t
  let ttl := d8 % 256
  -- unsigned char protocol_num = data[9];
  let (d9, t) ← rd frame (data + 9) t
  let protocol_num := d9 % 256
  -- const char* protocol_name = NULL; switch (protocol_num) ...
  let protocol_name := protocol_name protocol_num
  -- printf(...)
  let t := { t with stdout := t.stdout ++
    [printf "IPv%d, %d bytes (%d header), %sevil, protocol: %s (#%d)\n"
      [.int version, .int len, .int ihl, .str (some (if evil then "" else "not ")),
       .str protocol_name, .int protocol_num]] }
  return (⟨version, ihl, len, evil, ttl, protocol_num, protocol_name⟩, t)

/-- Header byte `k`: the byte `k` places after the 16-byte link-layer prefix
(`0` when the frame has no such byte). -/
def headerByte (frame : List Byte) (k : Nat) : Nat :=
  ((frame.drop 16).getD k 0).val

/-- The frame made of a 16-byte zero prefix and the given header bytes. -/
def frameOf (h : List Byte) : List Byte :=
  List.replicate 16 0 ++ h

/-- The example header `45 00 00 3C 00 00 40 00 40 06` of the specification. -/
def exampleHeader : List Byte :=
  [0x45, 0x00, 0x00, 0x3C, 0x00, 0x00, 0x40, 0x00, 0x40, 0x06]

/-- The header `5F 00 00 05 00 00 00 00 40 06`: version nibble 5, header length
60, total length 5. -/
def oddHeader : List Byte :=
  [0x5F, 0x00, 0x00, 0x05, 0x00, 0x00, 0x00, 0x00, 0x40, 0x06]

/-- A frame with another link-layer prefix, other bytes 1, 4, 5, 7, 10, 11 and
other low bits of byte 6 than the example, and a tail. -/
def otherFrame : List Byte :=
  List.replicate 16 0xFF ++
    [0x45, 0xAA, 0x00, 0x3C, 0x12, 0x34, 0x7F, 0x99, 0x40, 0x06, 0xDE, 0xAD, 0x0A, 0x00]

/-- A header whose length bytes are `FF FF` and whose byte 0 is `FF`. -/
def maxHeader : List Byte :=
  [0xFF, 0x00, 0xFF, 0xFF, 0x00, 0x00, 0xFF, 0x00, 0xFF, 0xFF]

/-! ## Auxiliary facts -/

theorem headerByte_lt (frame : List Byte) (k : Nat) : headerByte frame k < 256 :=
  ((frame.drop 16).getD k 0).isLt

theorem getElem?_of_headerByte (frame : List Byte) (k : Nat) (h : 16 + k < frame.length) :
    ∃ b : Byte, frame[16 + k]? = some b ∧ b.val = headerByte frame k := by
  refine ⟨frame[16 + k], List.getElem?_eq_getElem h, ?_⟩
  simp [headerByte, List.getD, List.getElem?_drop, List.getElem?_eq_getElem h]

theorem headerByte_append (pre h rest : List Byte) (hp : pre.length = 16) (k : Nat)
    (hk : k < h.length) : headerByte (pre ++ h ++ rest) k = (h.getD k 0).val := by
  have hd : (pre ++ h ++ rest).drop 16 = h ++ rest := by
    rw [List.append_assoc, ← hp, List.drop_left]
  unfold headerByte
  rw [hd, List.getD_eq_getElem?_getD, List.getD_eq_getElem?_getD, List.getElem?_append_left hk]

theorem shiftRight_four (n : Nat) : n >>> 4 = n / 16 :=
  Nat.shiftRight_eq_div_pow n 4

theorem and_fifteen (n : Nat) : n &&& 0xf = n % 16 :=
  Nat.and_pow_two_sub_one_eq_mod n 4

theorem shiftLeft_or_byte (a b : Nat) (h : b < 256) : a <<< 8 ||| b = a * 256 + b := by
  have e := Nat.mul_add_lt_is_or (i := 8) (by simpa using h) a
  rw [Nat.shiftLeft_eq, Nat.mul_comm]
  exact e.symm

set_option maxRecDepth 100000 in
theorem byte_top_bit : ∀ b : Byte,
    ((b.val &&& 0x80) != 0) = decide (0x80 ≤ b.val) ∧
    ((b.val &&& 0x80) != 0) = b.val.testBit 7 := by
  decide

theorem top_bit_ge (n : Nat) (h : n < 256) : ((n &&& 0x80) != 0) = decide (0x80 ≤ n) :=
  (byte_top_bit ⟨n, h⟩).1

theorem top_bit_testBit (n : Nat) (h : n < 256) : ((n &&& 0x80) != 0) = n.testBit 7 :=
  (byte_top_bit ⟨n, h⟩).2

/-- A run on a frame with all ten inspected header bytes: the locals, the seven
reads, the warning (if any) and the summary line. -/
theorem handle_packet_ok (frame : List Byte) (h : 26 ≤ frame.length) :
    handle_packet frame = .ok
      (⟨headerByte frame 0 >>> 4 % 256,
        (headerByte frame 0 &&& 0xf) * 4 % 256,
        (headerByte frame 2 <<< 8 ||| headerByte frame 3) % 65536,
        (headerByte frame 6 &&& 0x80) != 0,
        headerByte frame 8 % 256,
        headerByte frame 9 % 256,
        protocol_name (headerByte frame 9 % 256)⟩,
       ⟨[16, 16, 18, 19, 22, 24, 25],
        if headerByte frame 0 >>> 4 % 256 ≠ 4 ∧ headerByte frame 0 >>> 4 % 256 ≠ 6 then
          [printf "Invalid version: %d\n" [.int (headerByte frame 0 >>> 4 % 256)]] else [],
        [printf "IPv%d, %d bytes (%d header), %sevil, protocol: %s (#%d)\n"
          [.int (headerByte frame 0 >>> 4 % 256),
           .int ((headerByte frame 2 <<< 8 ||| headerByte frame 3) % 65536),
           .int ((headerByte frame 0 &&& 0xf) * 4 % 256),
           .str (some (if ((headerByte frame 6 &&& 0x80) != 0) = true then "" else "not ")),
           .str (protocol_name (headerByte frame 9 % 256)),
           .int (headerByte frame 9 % 256)]]⟩) := by
  obtain ⟨b0, e0, v0⟩ := getElem?_of_headerByte frame 0 (by omega)
  obtain ⟨b2, e2, v2⟩ := getElem?_of_headerByte frame 2 (by omega)
  obtain ⟨b3, e3, v3⟩ := getElem?_of_headerByte frame 3 (by omega)
  obtain ⟨b6, e6, v6⟩ := getElem?_of_headerByte frame 6 (by omega)
  obtain ⟨b8, e8, v8⟩ := getElem?_of_headerByte frame 8 (by omega)
  obtain ⟨b9, e9, v9⟩ := getElem?_of_headerByte frame 9 (by omega)
  rw [← v0, ← v2, ← v3, ← v6, ← v8, ← v9]
  simp only [handle_packet, rd, e0, e2, e3, e6, e8, e9, bind, Except.bind, pure, Except.pure]
  split <;> simp

theorem version_store (frame : List Byte) :
    headerByte frame 0 >>> 4 % 256 = headerByte frame 0 / 16 := by
  have := headerByte_lt frame 0
  rw [shiftRight_four]; omega

theorem ihl_store (frame : List Byte) :
    (headerByte frame 0 &&& 0xf) * 4 % 256 = headerByte frame 0 % 16 * 4 := by
  rw [and_fifteen]; omega

theorem len_store (frame : List Byte) :
    (headerByte frame 2 <<< 8 ||| headerByte frame 3) % 65536 =
      headerByte frame 2 * 256 + headerByte frame 3 := by
  have h2 := headerByte_lt frame 2
  have h3 := headerByte_lt frame 3
  rw [shiftLeft_or_byte _ _ h3]; omega

theorem byte_store (frame : List Byte) (k : Nat) : headerByte frame k % 256 = headerByte frame k :=
  Nat.mod_eq_of_lt (headerByte_lt frame k)

theorem getElem?_past_end (frame : List Byte) (i : Nat) (h : frame.length ≤ i) :
    frame[i]? = none := by
  simp [h]

theorem printf_invalid_version (v : Nat) :
    printf "Invalid version: %d\n" [.int v] = "Invalid version: " ++ Nat.repr v ++ "\n" := by
  apply String.ext
  simp [printf, printfAux, String.data_append]

/-- A run on a frame that lacks one of the ten inspected header bytes: in
source order it makes the reads that are in bounds and stops at the first read
that is not, before the summary line; by then it has written the
invalid-version warning if byte 0 was there and its high nibble is neither 4
nor 6, and nothing else. -/
theorem handle_packet_short (frame : List Byte) (h : frame.length < 26) :
    ∃ f, handle_packet frame = .error f ∧
      [16 + 0, 16 + 2, 16 + 3, 16 + 6, 16 + 8, 16 + 9].find?
        (fun i => decide (frame.length ≤ i)) = some f.index ∧
      f.trace.reads = [16 + 0, 16 + 0, 16 + 2, 16 + 3, 16 + 6, 16 + 8, 16 + 9].takeWhile
        (fun i => decide (i < frame.length)) ∧
      f.trace.stderr =
        (if 16 < frame.length ∧ headerByte frame 0 / 16 ≠ 4 ∧ headerByte frame 0 / 16 ≠ 6 then
          ["Invalid version: " ++ Nat.repr (headerByte frame 0 / 16) ++ "\n"] else []) ∧
      f.trace.stdout = [] := by
  by_cases c0 : 16 + 0 < frame.length
  · obtain ⟨b0, e0, v0⟩ := getElem?_of_headerByte frame 0 c0
    have hv := version_store frame
    rw [← v0] at hv
    have k0 : 16 < frame.length := by omega
    have n0 : ¬ frame.length ≤ 16 := by omega
    by_cases c2 : 16 + 2 < frame.length
    · obtain ⟨b2, e2, -⟩ := getElem?_of_headerByte frame 2 c2
      have k2 : 18 < frame.length := by omega
      have n2 : ¬ frame.length ≤ 18 := by omega
      by_cases c3 : 16 + 3 < frame.length
      · obtain ⟨b3, e3, -⟩ := getElem?_of_headerByte frame 3 c3
        have k3 : 19 < frame.length := by omega
        have n3 : ¬ frame.length ≤ 19 := by omega
        by_cases c6 : 16 + 6 < frame.length
        · obtain ⟨b6, e6, -⟩ := getElem?_of_headerByte frame 6 c6
          have k6 : 22 < frame.length := by omega
          have n6 : ¬ frame.length ≤ 22 := by omega
          by_cases c8 : 16 + 8 < frame.length
          · obtain ⟨b8, e8, -⟩ := getElem?_of_headerByte frame 8 c8
            have k8 : 24 < frame.length := by omega
            have n8 : ¬ frame.length ≤ 24 := by omega
            have k9 : ¬ 25 < frame.length := by omega
            have n9 : frame.length ≤ 25 := by omega
            have e9 := getElem?_past_end frame (16 + 9) (by omega)
            simp only [handle_packet, rd, e0, e2, e3, e6, e8, e9, bind, Except.bind, hv]
            split <;> rename_i hc <;> refine ⟨_, rfl, ?_⟩ <;>
              simp [← v0, hc, printf_invalid_version, List.takeWhile, List.find?,
                k0, n0, k2, n2, k3, n3, k6, n6, k8, n8, k9, n9]
          · have e8 := getElem?_past_end frame (16 + 8) (by omega)
            have k8 : ¬ 24 < frame.length := by omega
            have n8 : frame.length ≤ 24 := by omega
            simp only [handle_packet, rd, e0, e2, e3, e6, e8, bind, Except.bind, hv]
            split <;> rename_i hc <;> refine ⟨_, rfl, ?_⟩ <;>
              simp [← v0, hc, printf_invalid_version, List.takeWhile, List.find?,
                k0, n0, k2, n2, k3, n3, k6, n6, k8, n8]
        · have e6 := getElem?_past_end frame (16 + 6) (by omega)
          have k6 : ¬ 22 < frame.length := by omega
          have n6 : frame.length ≤ 22 := by omega
          simp only [handle_packet, rd, e0, e2, e3, e6, bind, Except.bind, hv]
          split <;> rename_i hc <;> refine ⟨_, rfl, ?_⟩ <;>
            simp [← v0, hc, printf_invalid_version, List.takeWhile, List.find?,
              k0, n0, k2, n2, k3, n3, k6, n6]
      · have e3 := getElem?_past_end frame (16 + 3) (by omega)
        have k3 : ¬ 19 < frame.length := by omega
        have n3 : frame.length ≤ 19 := by omega
        simp only [handle_packet, rd, e0, e2, e3, bind, Except.bind, hv]
        split <;> rename_i hc <;> refine ⟨_, rfl, ?_⟩ <;>
          simp [← v0, hc, printf_invalid_version, List.takeWhile, List.find?,
            k0, n0, k2, n2, k3, n3]
    · have e2 := getElem?_past_end frame (16 + 2) (by omega)
      have k2 : ¬ 18 < frame.length := by omega
      have n2 : frame.length ≤ 18 := by omega
      simp only [handle_packet, rd, e0, e2, bind, Except.bind, hv]
      split <;> rename_i hc <;> refine ⟨_, rfl, ?_⟩ <;>
        simp [← v0, hc, printf_invalid_version, List.takeWhile, List.find?,
          k0, n0, k2, n2]
  · have e0 := getElem?_past_end frame (16 + 0) (by omega)
    have k0 : ¬ 16 < frame.length := by omega
    have n0 : frame.length ≤ 16 := by omega
    simp only [handle_packet, rd, e0, bind, Except.bind]
    refine ⟨_, rfl, ?_⟩
    simp [List.takeWhile, List.find?, k0, n0]

/-- A run that returns normally was on a frame holding all ten inspected bytes. -/
theorem length_of_ok (frame : List Byte) (r : Locals × Trace)
    (h : handle_packet frame = .ok r) : 26 ≤ frame.length := by
  by_contra hlt
  obtain ⟨f, hf, -⟩ := handle_packet_short frame (by omega)
  rw [hf] at h
  cases h

theorem printf_summary (v l i p : Nat) (e : Bool) (name : String) :
    printf "IPv%d, %d bytes (%d header), %sevil, protocol: %s (#%d)\n"
        [.int v, .int l, .int i, .str (some (if e = true then "" else "not ")),
         .str (some name), .int p] =
      "IPv" ++ Nat.repr v ++ ", " ++ Nat.repr l ++ " bytes (" ++ Nat.repr i ++ " header), " ++
        (if e = true then "evil" else "not evil") ++ ", protocol: " ++ name ++
        " (#" ++ Nat.repr p ++ ")" ++ "\n" := by
  apply String.ext
  cases e <;> simp [printf, printfAux, String.data_append]

theorem printf_summary_variant (v l i p : Nat) (e : Bool) (name : String) :
    printf "IPv%d, %d bytes (%d header), %sevil, protocol: %s (#%d)\n"
        [.int v, .int l, .int i, .str (some (if e = true then "" else "not ")),
         .str (some name), .int p] =
      "IPv" ++ Nat.repr v ++ ", " ++ Nat.repr l ++ " bytes (" ++ Nat.repr i ++ " header), " ++
        (if e = true then "evil, " else "not evil, ") ++ "protocol: " ++ name ++
        " (#" ++ Nat.repr p ++ ")" ++ "\n" := by
  apply String.ext
  cases e <;> simp [printf, printfAux, String.data_append]

theorem protocol_name_some (n : Nat) : ∃ name, protocol_name n = some name := by
  unfold protocol_name
  split <;> exact ⟨_, rfl⟩

theorem headerByte_eq_getElem? (frame : List Byte) (k : Nat) :
    headerByte frame k = (frame[16 + k]?.getD 0).val := by
  simp [headerByte, List.getD, List.getElem?_drop]

theorem headerByte_set_ne (frame : List Byte) (j k : Nat) (b : Byte) (h : j ≠ k) :
    headerByte (frame.set (16 + j) b) k = headerByte frame k := by
  rw [headerByte_eq_getElem?, headerByte_eq_getElem?, List.getElem?_set_ne (by omega)]

theorem headerByte_set_eq (frame : List Byte) (k : Nat) (b : Byte) (h : 16 + k < frame.length) :
    headerByte (frame.set (16 + k) b) k = b.val := by
  rw [headerByte_eq_getElem?, List.getElem?_set_self h]
  rfl

/-! ## The claims -/

/-- C1: for every frame with at least 10 bytes after the 16-byte link-layer
prefix, `handle_packet` returns with `version` = header byte 0 divided by 16,
`ihl` = (header byte 0 mod 16) * 4, `len` = header byte 2 * 256 + header byte 3,
`evil` = bit 7 (mask 0x80) of header byte 6, `ttl` = header byte 8 and
`protocol_num` = header byte 9; when the header bytes are
`45 00 00 3C 00 00 40 00 40 06` (after any 16-byte prefix, before any tail) the
decoded values are 4, 20, 60, false, 64, 6 and the name "TCP". -/
theorem C1_decoded_fields (frame : List Byte) (h : 10 ≤ (frame.drop 16).length) :
    ∃ L t, handle_packet frame = .ok (L, t) ∧
      L.version = headerByte frame 0 / 16 ∧
      L.ihl = headerByte frame 0 % 16 * 4 ∧
      L.len = headerByte frame 2 * 256 + headerByte frame 3 ∧
      L.evil = (headerByte frame 6).testBit 7 ∧
      L.ttl = headerByte frame 8 ∧
      L.protocol_num = headerByte frame 9 ∧
      (∀ pre rest : List Byte, pre.length = 16 → frame = pre ++ exampleHeader ++ rest →
        L = ⟨4, 20, 60, false, 64, 6, some "TCP"⟩) := by
  have hl : 26 ≤ frame.length := by
    rw [List.length_drop] at h; omega
  refine ⟨_, _, handle_packet_ok frame hl, version_store frame, ihl_store frame,
    len_store frame, top_bit_testBit _ (headerByte_lt frame 6), byte_store frame 8,
    byte_store frame 9, ?_⟩
  intro pre rest hp hf
  have hb : ∀ k, k < exampleHeader.length →
      headerByte frame k = (exampleHeader.getD k 0).val := by
    intro k hk
    rw [hf]
    exact headerByte_append pre exampleHeader rest hp k hk
  rw [hb 0 (by decide), hb 2 (by decide), hb 3 (by decide), hb 6 (by decide),
    hb 8 (by decide), hb 9 (by decide)]
  rfl

/-- C1 at the frame made of a zero prefix and the example header. -/
theorem C1_decoded_fields_witness :
    10 ≤ ((frameOf exampleHeader).drop 16).length ∧
    ∃ L t, handle_packet (frameOf exampleHeader) = .ok (L, t) ∧
      L.version = headerByte (frameOf exampleHeader) 0 / 16 ∧
      L.ihl = headerByte (frameOf exampleHeader) 0 % 16 * 4 ∧
      L.len = headerByte (frameOf exampleHeader) 2 * 256 + headerByte (frameOf exampleHeader) 3 ∧
      L.evil = (headerByte (frameOf exampleHeader) 6).testBit 7 ∧
      L.ttl = headerByte (frameOf exampleHeader) 8 ∧
      L.protocol_num = headerByte (frameOf exampleHeader) 9 ∧
      (∀ pre rest : List Byte, pre.length = 16 →
        frameOf exampleHeader = pre ++ exampleHeader ++ rest →
        L = ⟨4, 20, 60, false, 64, 6, some "TCP"⟩) :=
  ⟨by decide, C1_decoded_fields (frameOf exampleHeader) (by decide)⟩

/-- C2: the protocol-name lookup is total: it gives "ICMP" for 1, "Packet
encapsulation" for 4, "TCP" for 6, "UDP" for 17, "Nice (also SATNET)" for 69,
"ipbounce setup" for 180 and "Something else" for every other number (42 for
one), so it is never `NULL`; and the name `handle_packet` reports is this lookup
at its protocol number, which lies in 0..255. -/
theorem C2_protocol_name_total :
    protocol_name 1 = some "ICMP" ∧
    protocol_name 4 = some "Packet encapsulation" ∧
    protocol_name 6 = some "TCP" ∧
    protocol_name 17 = some "UDP" ∧
    protocol_name 69 = some "Nice (also SATNET)" ∧
    protocol_name 180 = some "ipbounce setup" ∧
    protocol_name 42 = some "Something else" ∧
    (∀ n : Nat, n ∉ [1, 4, 6, 17, 69, 180] → protocol_name n = some "Something else") ∧
    (∀ n : Nat, protocol_name n ≠ none) ∧
    (∀ frame L t, handle_packet frame = .ok (L, t) →
      L.protocol_num < 256 ∧ L.protocol_name = protocol_name L.protocol_num ∧
      L.protocol_name ≠ none) := by
  have hne : ∀ n : Nat, protocol_name n ≠ none := by
    intro n
    unfold protocol_name
    split <;> simp
  refine ⟨rfl, rfl, rfl, rfl, rfl, rfl, rfl, ?_, hne, ?_⟩
  · intro n hn
    simp only [List.mem_cons, List.mem_singleton, List.not_mem_nil, or_false, not_or] at hn
    unfold protocol_name
    split <;> simp_all
  · intro frame L t hok
    have hl := length_of_ok frame _ hok
    rw [handle_packet_ok frame hl] at hok
    cases hok
    exact ⟨Nat.mod_lt _ (by decide), rfl, hne _⟩

/-- C4: for every frame whose length minus the 16-byte prefix is at least 10,
`handle_packet` returns with every local set (the name pointer is not `NULL`,
the numbers fit their C types), and the offsets it reads are exactly
16 + 0, 2, 3, 6, 8, 9, each strictly below the frame length. -/
theorem C4_reads_in_bounds (frame : List Byte) (h : 10 ≤ frame.length - 16) :
    ∃ L t, handle_packet frame = .ok (L, t) ∧
      L.protocol_name ≠ none ∧
      L.version < 16 ∧ L.ihl < 256 ∧ L.len < 65536 ∧ L.ttl < 256 ∧ L.protocol_num < 256 ∧
      (∀ i, i ∈ t.reads ↔ i ∈ [16 + 0, 16 + 2, 16 + 3, 16 + 6, 16 + 8, 16 + 9]) ∧
      (∀ i ∈ t.reads, i < frame.length) := by
  have hl : 26 ≤ frame.length := by omega
  have h0 := headerByte_lt frame 0
  refine ⟨_, _, handle_packet_ok frame hl, ?_, ?_, Nat.mod_lt _ (by decide),
    Nat.mod_lt _ (by decide), Nat.mod_lt _ (by decide), Nat.mod_lt _ (by decide), ?_, ?_⟩
  · show protocol_name _ ≠ none
    unfold protocol_name
    split <;> simp
  · show headerByte frame 0 >>> 4 % 256 < 16
    rw [version_store]; omega
  · intro i
    simp
  · intro i hi
    simp at hi
    omega

/-- C4 at the frame made of a zero prefix and the example header. -/
theorem C4_reads_in_bounds_witness :
    10 ≤ (frameOf exampleHeader).length - 16 ∧
    ∃ L t, handle_packet (frameOf exampleHeader) = .ok (L, t) ∧
      L.protocol_name ≠ none ∧
      L.version < 16 ∧ L.ihl < 256 ∧ L.len < 65536 ∧ L.ttl < 256 ∧ L.protocol_num < 256 ∧
      (∀ i, i ∈ t.reads ↔ i ∈ [16 + 0, 16 + 2, 16 + 3, 16 + 6, 16 + 8, 16 + 9]) ∧
      (∀ i ∈ t.reads, i < (frameOf exampleHeader).length) :=
  ⟨by decide, C4_reads_in_bounds (frameOf exampleHeader) (by decide)⟩

/-- C6: for every decoded frame, the text written to `stdout` is the one line
"IPv" version ", " len " bytes (" ihl " header), " then "evil" or "not evil",
then ", protocol: " name " (#" protocol_num ")", the numbers in decimal, ended by
a newline, where version, len, ihl, evil, protocol_num and name are those of
this frame: header byte 0 / 16, byte 2 * 256 + byte 3, (byte 0 mod 16) * 4,
0x80 ≤ byte 6, byte 9 and the name looked up for byte 9.  For the header bytes
`45 00 00 3C 00 00 40 00 40 06` the line is
"IPv4, 60 bytes (20 header), not evil, protocol: TCP (#6)"; for the header
bytes `5F 00 00 05 00 00 00 00 40 06` it is
"IPv5, 5 bytes (60 header), not evil, protocol: TCP (#6)". -/
theorem C6_summary_line (frame : List Byte) (h : 10 ≤ frame.length - 16) :
    ∃ L t name, handle_packet frame = .ok (L, t) ∧ L.protocol_name = some name ∧
      t.stdout =
        ["IPv" ++ Nat.repr L.version ++ ", " ++ Nat.repr L.len ++ " bytes (" ++
          Nat.repr L.ihl ++ " header), " ++ (if L.evil = true then "evil" else "not evil") ++
          ", protocol: " ++ name ++ " (#" ++ Nat.repr L.protocol_num ++ ")" ++ "\n"] ∧
      (∀ pre rest : List Byte, pre.length = 16 → frame = pre ++ exampleHeader ++ rest →
        t.stdout = ["IPv4, 60 bytes (20 header), not evil, protocol: TCP (#6)" ++ "\n"]) ∧
      protocol_name (headerByte frame 9) = some name ∧
      L.version = headerByte frame 0 / 16 ∧
      L.len = headerByte frame 2 * 256 + headerByte frame 3 ∧
      L.ihl = headerByte frame 0 % 16 * 4 ∧
      (L.evil = true ↔ 0x80 ≤ headerByte frame 6) ∧
      L.protocol_num = headerByte frame 9 ∧
      t.stdout =
        ["IPv" ++ Nat.repr (headerByte frame 0 / 16) ++ ", " ++
          Nat.repr (headerByte frame 2 * 256 + headerByte frame 3) ++ " bytes (" ++
          Nat.repr (headerByte frame 0 % 16 * 4) ++ " header), " ++
          (if 0x80 ≤ headerByte frame 6 then "evil" else "not evil") ++
          ", protocol: " ++ name ++ " (#" ++ Nat.repr (headerByte frame 9) ++ ")" ++ "\n"] ∧
      (∀ pre rest : List Byte, pre.length = 16 → frame = pre ++ oddHeader ++ rest →
        t.stdout = ["IPv5, 5 bytes (60 header), not evil, protocol: TCP (#6)" ++ "\n"]) := by
  have hl : 26 ≤ frame.length := by omega
  obtain ⟨name, hn⟩ := protocol_name_some (headerByte frame 9 % 256)
  have hn9 : protocol_name (headerByte frame 9) = some name := by
    rwa [byte_store] at hn
  have h6 := top_bit_ge _ (headerByte_lt frame 6)
  refine ⟨_, _, name, handle_packet_ok frame hl, hn, ?_, ?_, hn9, version_store frame,
    len_store frame, ihl_store frame, ?_, byte_store frame 9, ?_, ?_⟩
  · show [printf _ _] = _
    rw [hn, printf_summary]
  · intro pre rest hp hf
    have hb : ∀ k, k < exampleHeader.length →
        headerByte frame k = (exampleHeader.getD k 0).val := by
      intro k hk
      rw [hf]
      exact headerByte_append pre exampleHeader rest hp k hk
    show [printf _ _] = _
    rw [hb 0 (by decide), hb 2 (by decide), hb 3 (by decide), hb 6 (by decide),
      hb 9 (by decide)]
    rfl
  · show ((headerByte frame 6 &&& 0x80) != 0) = true ↔ _
    rw [h6, decide_eq_true_iff]
  · show [printf _ _] = _
    rw [hn, printf_summary, version_store, len_store, ihl_store, byte_store, h6]
    simp only [decide_eq_true_eq]
  · intro pre rest hp hf
    have hb : ∀ k, k < oddHeader.length →
        headerByte frame k = (oddHeader.getD k 0).val := by
      intro k hk
      rw [hf]
      exact headerByte_append pre oddHeader rest hp k hk
    show [printf _ _] = _
    rw [hb 0 (by decide), hb 2 (by decide), hb 3 (by decide), hb 6 (by decide),
      hb 9 (by decide)]
    rfl

/-- C6 at the frame made of a zero prefix and the header
`5F 00 00 05 00 00 00 00 40 06`. -/
theorem C6_summary_line_witness :
    10 ≤ (frameOf oddHeader).length - 16 ∧
    handle_packet (frameOf oddHeader) =
      .ok (⟨5, 60, 5, false, 64, 6, some "TCP"⟩,
           ⟨[16, 16, 18, 19, 22, 24, 25], ["Invalid version: 5" ++ "\n"],
            ["IPv5, 5 bytes (60 header), not evil, protocol: TCP (#6)" ++ "\n"]⟩) ∧
    ∃ L t name, handle_packet (frameOf oddHeader) = .ok (L, t) ∧
      L.protocol_name = some name ∧
      t.stdout =
        ["IPv" ++ Nat.repr L.version ++ ", " ++ Nat.repr L.len ++ " bytes (" ++
          Nat.repr L.ihl ++ " header), " ++ (if L.evil = true then "evil" else "not evil") ++
          ", protocol: " ++ name ++ " (#" ++ Nat.repr L.protocol_num ++ ")" ++ "\n"] ∧
      (∀ pre rest : List Byte, pre.length = 16 →
        frameOf oddHeader = pre ++ exampleHeader ++ rest →
        t.stdout = ["IPv4, 60 bytes (20 header), not evil, protocol: TCP (#6)" ++ "\n"]) ∧
      protocol_name (headerByte (frameOf oddHeader) 9) = some name ∧
      L.version = headerByte (frameOf oddHeader) 0 / 16 ∧
      L.len = headerByte (frameOf oddHeader) 2 * 256 + headerByte (frameOf oddHeader) 3 ∧
      L.ihl = headerByte (frameOf oddHeader) 0 % 16 * 4 ∧
      (L.evil = true ↔ 0x80 ≤ headerByte (frameOf oddHeader) 6) ∧
      L.protocol_num = headerByte (frameOf oddHeader) 9 ∧
      t.stdout =
        ["IPv" ++ Nat.repr (headerByte (frameOf oddHeader) 0 / 16) ++ ", " ++
          Nat.repr (headerByte (frameOf oddHeader) 2 * 256 +
            headerByte (frameOf oddHeader) 3) ++ " bytes (" ++
          Nat.repr (headerByte (frameOf oddHeader) 0 % 16 * 4) ++ " header), " ++
          (if 0x80 ≤ headerByte (frameOf oddHeader) 6 then "evil" else "not evil") ++
          ", protocol: " ++ name ++ " (#" ++
          Nat.repr (headerByte (frameOf oddHeader) 9) ++ ")" ++ "\n"] ∧
      (∀ pre rest : List Byte, pre.length = 16 →
        frameOf oddHeader = pre ++ oddHeader ++ rest →
        t.stdout = ["IPv5, 5 bytes (60 header), not evil, protocol: TCP (#6)" ++ "\n"]) :=
  ⟨by decide, rfl, C6_summary_line (frameOf oddHeader) (by decide)⟩

/-- C7: for every frame of sufficient length, `evil` is true exactly when
header byte 6 is at least 0x80, and the summary line has "evil, " then and
"not evil, " otherwise; putting any byte `b` in place of header byte 6 (frame
offset 22) gives `evil` = (0x80 ≤ b) and changes no other local and not the
`stderr` text.  With flags byte C0 in the example header the line is the
"evil, " one, with flags byte 40 the "not evil, " one. -/
theorem C7_evil_flag (frame : List Byte) (h : 10 ≤ frame.length - 16) :
    ∃ L t name, handle_packet frame = .ok (L, t) ∧ L.protocol_name = some name ∧
      (L.evil = true ↔ 0x80 ≤ headerByte frame 6) ∧
      t.stdout =
        ["IPv" ++ Nat.repr L.version ++ ", " ++ Nat.repr L.len ++ " bytes (" ++
          Nat.repr L.ihl ++ " header), " ++
          (if 0x80 ≤ headerByte frame 6 then "evil, " else "not evil, ") ++
          "protocol: " ++ name ++ " (#" ++ Nat.repr L.protocol_num ++ ")" ++ "\n"] ∧
      (∀ b : Byte, ∃ L2 t2, handle_packet (frame.set (16 + 6) b) = .ok (L2, t2) ∧
        (L2.evil = true ↔ 0x80 ≤ b.val) ∧
        L2.version = L.version ∧ L2.ihl = L.ihl ∧ L2.len = L.len ∧ L2.ttl = L.ttl ∧
        L2.protocol_num = L.protocol_num ∧ L2.protocol_name = L.protocol_name ∧
        t2.stderr = t.stderr) ∧
      handle_packet (frameOf (exampleHeader.set 6 0xC0)) =
        .ok (⟨4, 20, 60, true, 64, 6, some "TCP"⟩,
             ⟨[16, 16, 18, 19, 22, 24, 25], [],
              ["IPv4, 60 bytes (20 header), evil, protocol: TCP (#6)" ++ "\n"]⟩) ∧
      handle_packet (frameOf (exampleHeader.set 6 0x40)) =
        .ok (⟨4, 20, 60, false, 64, 6, some "TCP"⟩,
             ⟨[16, 16, 18, 19, 22, 24, 25], [],
              ["IPv4, 60 bytes (20 header), not evil, protocol: TCP (#6)" ++ "\n"]⟩) := by
  have hl : 26 ≤ frame.length := by omega
  obtain ⟨name, hn⟩ := protocol_name_some (headerByte frame 9 % 256)
  have h6 := top_bit_ge _ (headerByte_lt frame 6)
  refine ⟨_, _, name, handle_packet_ok frame hl, hn, ?_, ?_, ?_, rfl, rfl⟩
  · show ((headerByte frame 6 &&& 0x80) != 0) = true ↔ _
    rw [h6, decide_eq_true_iff]
  · show [printf _ _] = _
    rw [hn, printf_summary_variant, h6]
    simp only [decide_eq_true_eq]
  · intro b
    have hl2 : 26 ≤ (frame.set (16 + 6) b).length := by
      rw [List.length_set]; exact hl
    refine ⟨_, _, handle_packet_ok _ hl2, ?_, ?_, ?_, ?_, ?_, ?_, ?_, ?_⟩
    · show ((headerByte (frame.set (16 + 6) b) 6 &&& 0x80) != 0) = true ↔ _
      rw [headerByte_set_eq frame 6 b (by omega), top_bit_ge _ b.isLt, decide_eq_true_iff]
    all_goals
      simp only [headerByte_set_ne frame 6 0 b (by decide),
        headerByte_set_ne frame 6 2 b (by decide), headerByte_set_ne frame 6 3 b (by decide),
        headerByte_set_ne frame 6 8 b (by decide), headerByte_set_ne frame 6 9 b (by decide)]

/-- C7 at the frame made of a zero prefix and the example header. -/
theorem C7_evil_flag_witness :
    10 ≤ (frameOf exampleHeader).length - 16 ∧
    ∃ L t name, handle_packet (frameOf exampleHeader) = .ok (L, t) ∧
      L.protocol_name = some name ∧
      (L.evil = true ↔ 0x80 ≤ headerByte (frameOf exampleHeader) 6) ∧
      t.stdout =
        ["IPv" ++ Nat.repr L.version ++ ", " ++ Nat.repr L.len ++ " bytes (" ++
          Nat.repr L.ihl ++ " header), " ++
          (if 0x80 ≤ headerByte (frameOf exampleHeader) 6 then "evil, " else "not evil, ") ++
          "protocol: " ++ name ++ " (#" ++ Nat.repr L.protocol_num ++ ")" ++ "\n"] ∧
      (∀ b : Byte, ∃ L2 t2,
        handle_packet ((frameOf exampleHeader).set (16 + 6) b) = .ok (L2, t2) ∧
        (L2.evil = true ↔ 0x80 ≤ b.val) ∧
        L2.version = L.version ∧ L2.ihl = L.ihl ∧ L2.len = L.len ∧ L2.ttl = L.ttl ∧
        L2.protocol_num = L.protocol_num ∧ L2.protocol_name = L.protocol_name ∧
        t2.stderr = t.stderr) ∧
      handle_packet (frameOf (exampleHeader.set 6 0xC0)) =
        .ok (⟨4, 20, 60, true, 64, 6, some "TCP"⟩,
             ⟨[16, 16, 18, 19, 22, 24, 25], [],
              ["IPv4, 60 bytes (20 header), evil, protocol: TCP (#6)" ++ "\n"]⟩) ∧
      handle_packet (frameOf (exampleHeader.set 6 0x40)) =
        .ok (⟨4, 20, 60, false, 64, 6, some "TCP"⟩,
             ⟨[16, 16, 18, 19, 22, 24, 25], [],
              ["IPv4, 60 bytes (20 header), not evil, protocol: TCP (#6)" ++ "\n"]⟩) :=
  ⟨by decide, C7_evil_flag (frameOf exampleHeader) (by decide)⟩

/-- C8: `handle_packet` is a function of header bytes 0, 2, 3, 8, 9 and the bit
0x80 of header byte 6: two frames of sufficient length that agree on those
return the same locals and the same trace (the same `stderr` text, the same
summary line, the same reads), whatever their other bytes and lengths. -/
theorem C8_depends_only_on_inspected (f g : List Byte)
    (hf : 10 ≤ f.length - 16) (hg : 10 ≤ g.length - 16)
    (h0 : headerByte f 0 = headerByte g 0) (h2 : headerByte f 2 = headerByte g 2)
    (h3 : headerByte f 3 = headerByte g 3) (h8 : headerByte f 8 = headerByte g 8)
    (h9 : headerByte f 9 = headerByte g 9)
    (h6 : headerByte f 6 &&& 0x80 = headerByte g 6 &&& 0x80) :
    ∃ L t, handle_packet f = .ok (L, t) ∧ handle_packet g = .ok (L, t) := by
  refine ⟨_, _, handle_packet_ok f (by omega), ?_⟩
  rw [handle_packet_ok g (by omega), h0, h2, h3, h8, h9, h6]

/-- C8 at the example frame and `otherFrame`. -/
theorem C8_depends_only_on_inspected_witness :
    frameOf exampleHeader ≠ otherFrame ∧
    ∃ L t, handle_packet (frameOf exampleHeader) = .ok (L, t) ∧
      handle_packet otherFrame = .ok (L, t) :=
  ⟨by decide,
    C8_depends_only_on_inspected (frameOf exampleHeader) otherFrame (by decide) (by decide)
      (by decide) (by decide) (by decide) (by decide) (by decide) (by decide)⟩

/-- C9: field extraction does not look at the version: putting any byte `b`
with the same low nibble in place of header byte 0 (frame offset 16) leaves
`ihl`, `len`, `evil`, `ttl`, `protocol_num` and `protocol_name` as they were;
and a frame whose version nibble is 6 gets `ihl` = (low nibble of byte 0) * 4,
`len` from bytes 2-3 and `protocol_num` from byte 9, as every frame does. -/
theorem C9_version_independent (frame : List Byte) (b : Byte)
    (h : 10 ≤ frame.length - 16) (hlow : b.val % 16 = headerByte frame 0 % 16) :
    ∃ L t L2 t2, handle_packet frame = .ok (L, t) ∧
      handle_packet (frame.set (16 + 0) b) = .ok (L2, t2) ∧
      L2.version = b.val / 16 ∧
      L2.ihl = L.ihl ∧ L2.len = L.len ∧ L2.evil = L.evil ∧ L2.ttl = L.ttl ∧
      L2.protocol_num = L.protocol_num ∧ L2.protocol_name = L.protocol_name ∧
      (L2.version = 6 →
        L2.ihl = b.val % 16 * 4 ∧
        L2.len = headerByte frame 2 * 256 + headerByte frame 3 ∧
        L2.protocol_num = headerByte frame 9) ∧
      (L.version = 4 →
        L.ihl = headerByte frame 0 % 16 * 4 ∧
        L.len = headerByte frame 2 * 256 + headerByte frame 3 ∧
        L.protocol_num = headerByte frame 9) := by
  have hl : 26 ≤ frame.length := by omega
  have hl2 : 26 ≤ (frame.set (16 + 0) b).length := by
    rw [List.length_set]; exact hl
  have e0 : headerByte (frame.set (16 + 0) b) 0 = b.val :=
    headerByte_set_eq frame 0 b (by omega)
  have hi : (headerByte (frame.set (16 + 0) b) 0 &&& 0xf) * 4 % 256 =
      (headerByte frame 0 &&& 0xf) * 4 % 256 := by
    rw [ihl_store, ihl_store, e0, hlow]
  refine ⟨_, _, _, _, handle_packet_ok frame hl, handle_packet_ok _ hl2, ?_, hi, ?_, ?_, ?_, ?_,
    ?_, ?_, ?_⟩
  · show headerByte (frame.set (16 + 0) b) 0 >>> 4 % 256 = _
    rw [version_store, e0]
  · show (headerByte (frame.set (16 + 0) b) 2 <<< 8 ||| headerByte (frame.set (16 + 0) b) 3)
      % 65536 = _
    rw [headerByte_set_ne frame 0 2 b (by decide), headerByte_set_ne frame 0 3 b (by decide)]
  · show ((headerByte (frame.set (16 + 0) b) 6 &&& 0x80) != 0) = _
    rw [headerByte_set_ne frame 0 6 b (by decide)]
  · show headerByte (frame.set (16 + 0) b) 8 % 256 = _
    rw [headerByte_set_ne frame 0 8 b (by decide)]
  · show headerByte (frame.set (16 + 0) b) 9 % 256 = _
    rw [headerByte_set_ne frame 0 9 b (by decide)]
  · show protocol_name (headerByte (frame.set (16 + 0) b) 9 % 256) = _
    rw [headerByte_set_ne frame 0 9 b (by decide)]
  · intro _
    refine ⟨?_, ?_, ?_⟩
    · show (headerByte (frame.set (16 + 0) b) 0 &&& 0xf) * 4 % 256 = _
      rw [ihl_store, e0]
    · show (headerByte (frame.set (16 + 0) b) 2 <<< 8 ||| headerByte (frame.set (16 + 0) b) 3)
        % 65536 = _
      rw [len_store, headerByte_set_ne frame 0 2 b (by decide),
        headerByte_set_ne frame 0 3 b (by decide)]
    · show headerByte (frame.set (16 + 0) b) 9 % 256 = _
      rw [byte_store, headerByte_set_ne frame 0 9 b (by decide)]
  · intro _
    exact ⟨ihl_store frame, len_store frame, byte_store frame 9⟩

/-- C9 at the example frame (version 4) and byte 0x65 (version 6, same low nibble). -/
theorem C9_version_independent_witness :
    10 ≤ (frameOf exampleHeader).length - 16 ∧
    (0x65 : Byte).val % 16 = headerByte (frameOf exampleHeader) 0 % 16 ∧
    ∃ L t L2 t2, handle_packet (frameOf exampleHeader) = .ok (L, t) ∧
      handle_packet ((frameOf exampleHeader).set (16 + 0) 0x65) = .ok (L2, t2) ∧
      L2.version = (0x65 : Byte).val / 16 ∧
      L2.ihl = L.ihl ∧ L2.len = L.len ∧ L2.evil = L.evil ∧ L2.ttl = L.ttl ∧
      L2.protocol_num = L.protocol_num ∧ L2.protocol_name = L.protocol_name ∧
      (L2.version = 6 →
        L2.ihl = (0x65 : Byte).val % 16 * 4 ∧
        L2.len = headerByte (frameOf exampleHeader) 2 * 256 +
          headerByte (frameOf exampleHeader) 3 ∧
        L2.protocol_num = headerByte (frameOf exampleHeader) 9) ∧
      (L.version = 4 →
        L.ihl = headerByte (frameOf exampleHeader) 0 % 16 * 4 ∧
        L.len = headerByte (frameOf exampleHeader) 2 * 256 +
          headerByte (frameOf exampleHeader) 3 ∧
        L.protocol_num = headerByte (frameOf exampleHeader) 9) :=
  ⟨by decide, by decide,
    C9_version_independent (frameOf exampleHeader) 0x65 (by decide) (by decide)⟩

/-- C10: for every frame of sufficient length the narrowing stores lose
nothing: `version` is `b0 >> 4` and lies in 0..15; `ihl` is `(b0 & 0xf) * 4`, a
multiple of 4 in 0..60, equal to its value modulo 2^8; `len` is `b2 << 8 | b3`,
which equals `b2 * 256 + b3`, lies in 0..65535 and equals its value modulo
2^16. -/
theorem C10_narrowing_lossless (frame : List Byte) (h : 10 ≤ frame.length - 16) :
    ∃ L t, handle_packet frame = .ok (L, t) ∧
      L.version = headerByte frame 0 >>> 4 ∧ L.version < 16 ∧
      L.ihl = (headerByte frame 0 &&& 0xf) * 4 ∧ 4 ∣ L.ihl ∧ L.ihl ≤ 60 ∧
      (headerByte frame 0 &&& 0xf) * 4 % 2 ^ 8 = (headerByte frame 0 &&& 0xf) * 4 ∧
      L.len = headerByte frame 2 <<< 8 ||| headerByte frame 3 ∧
      headerByte frame 2 <<< 8 ||| headerByte frame 3 =
        headerByte frame 2 * 256 + headerByte frame 3 ∧
      L.len < 65536 ∧
      (headerByte frame 2 <<< 8 ||| headerByte frame 3) % 2 ^ 16 =
        headerByte frame 2 <<< 8 ||| headerByte frame 3 := by
  have hl : 26 ≤ frame.length := by omega
  have h0 := headerByte_lt frame 0
  have h2 := headerByte_lt frame 2
  have h3 := headerByte_lt frame 3
  have hv := version_store frame
  have hi := ihl_store frame
  have hn := len_store frame
  have ea := and_fifteen (headerByte frame 0)
  have eo := shiftLeft_or_byte (headerByte frame 2) (headerByte frame 3) h3
  have es := shiftRight_four (headerByte frame 0)
  refine ⟨_, _, handle_packet_ok frame hl, ?_, ?_, ?_, ?_, ?_, ?_, ?_, eo, ?_, ?_⟩
  · show headerByte frame 0 >>> 4 % 256 = _
    omega
  · show headerByte frame 0 >>> 4 % 256 < 16
    omega
  · show (headerByte frame 0 &&& 0xf) * 4 % 256 = _
    omega
  · show 4 ∣ (headerByte frame 0 &&& 0xf) * 4 % 256
    rw [hi]; exact Dvd.intro_left _ rfl
  · show (headerByte frame 0 &&& 0xf) * 4 % 256 ≤ 60
    omega
  · omega
  · show (headerByte frame 2 <<< 8 ||| headerByte frame 3) % 65536 = _
    omega
  · show (headerByte frame 2 <<< 8 ||| headerByte frame 3) % 65536 < 65536
    omega
  · omega

/-- C10 at a frame whose version, header length and total length are the largest. -/
theorem C10_narrowing_lossless_witness :
    10 ≤ (frameOf maxHeader).length - 16 ∧
    ∃ L t, handle_packet (frameOf maxHeader) = .ok (L, t) ∧
      L.version = headerByte (frameOf maxHeader) 0 >>> 4 ∧ L.version < 16 ∧
      L.ihl = (headerByte (frameOf maxHeader) 0 &&& 0xf) * 4 ∧ 4 ∣ L.ihl ∧ L.ihl ≤ 60 ∧
      (headerByte (frameOf maxHeader) 0 &&& 0xf) * 4 % 2 ^ 8 =
        (headerByte (frameOf maxHeader) 0 &&& 0xf) * 4 ∧
      L.len = headerByte (frameOf maxHeader) 2 <<< 8 ||| headerByte (frameOf maxHeader) 3 ∧
      headerByte (frameOf maxHeader) 2 <<< 8 ||| headerByte (frameOf maxHeader) 3 =
        headerByte (frameOf maxHeader) 2 * 256 + headerByte (frameOf maxHeader) 3 ∧
      L.len < 65536 ∧
      (headerByte (frameOf maxHeader) 2 <<< 8 ||| headerByte (frameOf maxHeader) 3) % 2 ^ 16 =
        headerByte (frameOf maxHeader) 2 <<< 8 ||| headerByte (frameOf maxHeader) 3 :=
  ⟨by decide, C10_narrowing_lossless (frameOf maxHeader) (by decide)⟩

end Ipbounce
